import Mathlib

/-!
Shallow embedding of the CHIP-8 emulator core (`src/emulator.rs`) and proofs
about its specification.  Machine integers are modelled as `Nat` with explicit
`% 256` / masking where the Rust code wraps; fallible operations return an
explicit result type.  A Rust array-indexing panic (index out of bounds) is
modelled by the dedicated `EmuResult.panic` constructor: it is a crash, not a
surfaced `EmulatorError`.
-/

/-- Decoded instruction record, as in `Instruction` of the source: operation
class and operand fields extracted from a 16-bit opcode. -/
structure Instruction where
  operation : Nat
  x : Nat
  y : Nat
  n : Nat
  nn : Nat
  nnn : Nat
deriving DecidableEq, Repr

/-- Error enumeration of the source (`EmulatorError`). -/
inductive EmulatorError where
  | ProgramTooLarge (size : Nat)
  | PcOutOfBounds
  | InvalidInstruction (i : Instruction)
  | PoppedEmptyStack
  | StackOverflow
deriving DecidableEq, Repr

/-- Machine state, mirroring `struct Emulator`.  Arrays are modelled as total
functions (only indices the source can reach are meaningful); `rng` together
with the cursor `rng_used` is a deterministic oracle standing for the thread
RNG drawn from by `random::(u8)` in `operation_c`. -/
structure Emulator where
  memory : Nat → Nat
  display : Nat → Nat → Bool
  pc : Nat
  index : Nat
  stack : Nat → Nat
  sp : Nat
  delay_timer : Nat
  sound_timer : Nat
  registers : Nat → Nat
  keypad : Nat → Bool
  shift_sets_vx : Bool
  jump_with_offset_bug_emulation : Bool
  increment_i_on_store_and_load : Bool
  rng : Nat → Nat
  rng_used : Nat

/-- Outcome of a fallible emulator operation: a value with the (possibly
mutated) state, a surfaced `EmulatorError` with the state as mutated up to the
error point (Rust keeps mutations made through `&mut self` before an early
`return Err`), or a Rust panic from an out-of-bounds array index. -/
inductive EmuResult (α : Type) where
  | ok (val : α) (st : Emulator)
  | err (er : EmulatorError) (st : Emulator)
  | panic

/-- Boolean test for the panic outcome. -/
def EmuResult.isPanic {α : Type} : EmuResult α → Bool
  | .panic => true
  | _ => false

/-- `Instruction::from_opcode`: pure field extraction from the 16-bit word. -/
def Instruction.from_opcode (opcode : Nat) : Instruction :=
  { operation := (opcode &&& 0xF000) >>> 12
    x := (opcode &&& 0x0F00) >>> 8
    y := (opcode &&& 0x00F0) >>> 4
    n := opcode &&& 0x000F
    nn := opcode &&& 0x00FF
    nnn := opcode &&& 0x0FFF }

/-- The built-in 80-byte glyph table (`FONT`). -/
def FONT : List Nat :=
  [0xF0, 0x90, 0x90, 0x90, 0xF0,
   0x20, 0x60, 0x20, 0x20, 0x70,
   0xF0, 0x10, 0xF0, 0x80, 0xF0,
   0xF0, 0x10, 0xF0, 0x10, 0xF0,
   0x90, 0x90, 0xF0, 0x10, 0x10,
   0xF0, 0x80, 0xF0, 0x10, 0xF0,
   0xF0, 0x80, 0xF0, 0x90, 0xF0,
   0xF0, 0x10, 0x20, 0x40, 0x40,
   0xF0, 0x90, 0xF0, 0x90, 0xF0,
   0xF0, 0x90, 0xF0, 0x10, 0xF0,
   0xF0, 0x90, 0xF0, 0x90, 0x90,
   0xE0, 0x90, 0xE0, 0x90, 0xE0,
   0xF0, 0x80, 0x80, 0x80, 0xF0,
   0xE0, 0x90, 0x90, 0x90, 0xE0,
   0xF0, 0x80, 0xF0, 0x80, 0xF0,
   0xF0, 0x80, 0xF0, 0x80, 0x80]

/-- Sequential byte store: `for (i, byte) in list { mem[base + i] = byte }`. -/
def storeList (mem : Nat → Nat) (base : Nat) : List Nat → (Nat → Nat)
  | [] => mem
  | b :: rest => storeList (Function.update mem base b) (base + 1) rest

/-- Body of the `Ok` branch of `Emulator::new`: memory loaded with the program
at 0x200 and the font at 0x50, everything else zero-initialised, pc at 0x200. -/
def Emulator.init (program : List Nat) (shift_sets_vx jump_bug inc_i : Bool) : Emulator :=
  { memory := storeList (storeList (fun _ => 0) 0x200 program) 0x50 FONT
    display := fun _ _ => false
    pc := 0x200
    index := 0
    stack := fun _ => 0
    sp := 0
    delay_timer := 0
    sound_timer := 0
    registers := fun _ => 0
    keypad := fun _ => false
    shift_sets_vx := shift_sets_vx
    jump_with_offset_bug_emulation := jump_bug
    increment_i_on_store_and_load := inc_i
    rng := fun _ => 0
    rng_used := 0 }

/-- `Emulator::new`: rejects programs larger than 4096 - 0x200 = 3584 bytes,
otherwise builds the initial state. -/
def Emulator.new (program : List Nat) (shift_sets_vx jump_bug inc_i : Bool) :
    Except EmulatorError Emulator :=
  if program.length > 0x1000 - 0x200 then
    .error (.ProgramTooLarge program.length)
  else
    .ok (Emulator.init program shift_sets_vx jump_bug inc_i)

/-- `tick_clock`: decrement each timer, floored at zero. -/
def Emulator.tick_clock (e : Emulator) : Emulator :=
  let e1 := if e.delay_timer > 0 then {e with delay_timer := e.delay_timer - 1} else e
  if e1.sound_timer > 0 then {e1 with sound_timer := e1.sound_timer - 1} else e1

/-- Guarded memory read: `some` of the byte when the address is inside the
4096-byte array, `none` when the Rust indexing would panic. -/
def memRead (e : Emulator) (addr : Nat) : Option Nat :=
  if addr < 0x1000 then some (e.memory addr) else none

/-- Guarded memory write, `none` when the Rust indexing would panic. -/
def memWrite (e : Emulator) (addr v : Nat) : Option Emulator :=
  if addr < 0x1000 then some {e with memory := Function.update e.memory addr v} else none

/-- `fetch_opcode`: error when `pc >= 4096` (the only check the source makes),
then big-endian read of `memory[pc]` and `memory[pc + 1]` and `pc += 2`.  The
source does not check `pc + 1`, so `pc = 0xFFF` reaches the panic case. -/
def Emulator.fetch_opcode (e : Emulator) : EmuResult Nat :=
  if e.pc ≥ 0x1000 then .err .PcOutOfBounds e
  else
    match memRead e e.pc, memRead e (e.pc + 1) with
    | some hi, some lo => .ok ((hi <<< 8) ||| lo) {e with pc := e.pc + 2}
    | _, _ => .panic

/-- Class 0x0: clear screen (NNN = 0x0E0), return (NNN = 0x0EE), otherwise
invalid. -/
def Emulator.operation_0 (e : Emulator) (i : Instruction) : EmuResult Bool :=
  if i.nnn = 0x0E0 then
    .ok false {e with display := fun _ _ => false}
  else if i.nnn = 0x0EE then
    if e.sp = 0 then .err .PoppedEmptyStack e
    else if e.sp - 1 < 128 then
      .ok false {e with sp := e.sp - 1, pc := e.stack (e.sp - 1)}
    else .panic
  else .err (.InvalidInstruction i) e

/-- Class 0x1: unconditional jump. -/
def Emulator.operation_1 (e : Emulator) (i : Instruction) : EmuResult Bool :=
  .ok false {e with pc := i.nnn}

/-- Class 0x2: call.  The source writes `stack[sp]` and increments `sp`
before testing `sp == 128`, so the overflow error is reported after the push
already mutated the state; with `sp = 128` on entry the write itself panics. -/
def Emulator.operation_2 (e : Emulator) (i : Instruction) : EmuResult Bool :=
  if e.sp < 128 then
    let e1 := {e with stack := Function.update e.stack e.sp e.pc, sp := e.sp + 1}
    if e1.sp = 128 then .err .StackOverflow e1
    else .ok false {e1 with pc := i.nnn}
  else .panic

/-- Class 0x3: skip when `registers[X] == NN`. -/
def Emulator.operation_3 (e : Emulator) (i : Instruction) : EmuResult Bool :=
  .ok false (if e.registers i.x = i.nn then {e with pc := e.pc + 2} else e)

/-- Class 0x4: skip when `registers[X] != NN`. -/
def Emulator.operation_4 (e : Emulator) (i : Instruction) : EmuResult Bool :=
  .ok false (if e.registers i.x = i.nn then e else {e with pc := e.pc + 2})

/-- Class 0x5: skip when `registers[X] == registers[Y]`; the low nibble is
never inspected. -/
def Emulator.operation_5 (e : Emulator) (i : Instruction) : EmuResult Bool :=
  .ok false (if e.registers i.x = e.registers i.y then {e with pc := e.pc + 2} else e)

/-- Class 0x6: load immediate. -/
def Emulator.operation_6 (e : Emulator) (i : Instruction) : EmuResult Bool :=
  .ok false {e with registers := Function.update e.registers i.x i.nn}

/-- Class 0x7: wrapping add of immediate, no flag effect. -/
def Emulator.operation_7 (e : Emulator) (i : Instruction) : EmuResult Bool :=
  .ok false {e with registers := Function.update e.registers i.x ((e.registers i.x + i.nn) % 256)}

/-- Class 0x8: register-to-register ALU operations, dispatched on N.  The
`overflowing_add` / `overflowing_sub` of `u8` are modelled for in-range byte
values: result `% 256`, carry when the sum exceeds 255, borrow when the
subtrahend exceeds the minuend.  Flag writes happen after the result write,
exactly as in the source (so X = 15 ends with the flag). -/
def Emulator.operation_8 (e : Emulator) (i : Instruction) : EmuResult Bool :=
  match i.n with
  | 0x0 =>
    .ok false {e with registers := Function.update e.registers i.x (e.registers i.y)}
  | 0x1 =>
    .ok false {e with registers := Function.update e.registers i.x (e.registers i.x ||| e.registers i.y)}
  | 0x2 =>
    .ok false {e with registers := Function.update e.registers i.x (e.registers i.x &&& e.registers i.y)}
  | 0x3 =>
    .ok false {e with registers := Function.update e.registers i.x (e.registers i.x ^^^ e.registers i.y)}
  | 0x4 =>
    let sum := e.registers i.x + e.registers i.y
    let e1 := {e with registers := Function.update e.registers i.x (sum % 256)}
    .ok false {e1 with registers := Function.update e1.registers 0xF (if 255 < sum then 1 else 0)}
  | 0x5 =>
    let a := e.registers i.x
    let b := e.registers i.y
    let e1 := {e with registers := Function.update e.registers i.x ((a + 256 - b) % 256)}
    .ok false {e1 with registers := Function.update e1.registers 0xF (if a < b then 0 else 1)}
  | 0x6 =>
    let e1 := if e.shift_sets_vx then
        {e with registers := Function.update e.registers i.x (e.registers i.y)}
      else e
    let e2 := {e1 with registers := Function.update e1.registers 0xF (e1.registers i.x &&& 0x1)}
    .ok false {e2 with registers := Function.update e2.registers i.x (e2.registers i.x >>> 1)}
  | 0x7 =>
    let a := e.registers i.y
    let b := e.registers i.x
    let e1 := {e with registers := Function.update e.registers i.x ((a + 256 - b) % 256)}
    .ok false {e1 with registers := Function.update e1.registers 0xF (if a < b then 0 else 1)}
  | 0xE =>
    let e1 := if e.shift_sets_vx then
        {e with registers := Function.update e.registers i.x (e.registers i.y)}
      else e
    let e2 := {e1 with registers := Function.update e1.registers 0xF ((e1.registers i.x >>> 7) &&& 0x1)}
    .ok false {e2 with registers := Function.update e2.registers i.x ((e2.registers i.x <<< 1) % 256)}
  | _ => .err (.InvalidInstruction i) e

/-- Class 0x9: skip when `registers[X] != registers[Y]`; the low nibble is
never inspected. -/
def Emulator.operation_9 (e : Emulator) (i : Instruction) : EmuResult Bool :=
  .ok false (if e.registers i.x = e.registers i.y then e else {e with pc := e.pc + 2})

/-- Class 0xA: load the index register. -/
def Emulator.operation_a (e : Emulator) (i : Instruction) : EmuResult Bool :=
  .ok false {e with index := i.nnn}

/-- Class 0xB: indexed jump; the offset register is X under the quirk,
register 0 otherwise. -/
def Emulator.operation_b (e : Emulator) (i : Instruction) : EmuResult Bool :=
  if e.jump_with_offset_bug_emulation then
    .ok false {e with pc := i.nnn + e.registers i.x}
  else
    .ok false {e with pc := i.nnn + e.registers 0}

/-- Class 0xC: random byte (drawn from the oracle stream) masked by NN. -/
def Emulator.operation_c (e : Emulator) (i : Instruction) : EmuResult Bool :=
  .ok false {e with registers := Function.update e.registers i.x ((e.rng e.rng_used % 256) &&& i.nn),
                    rng_used := e.rng_used + 1}

/-- Sprite bit test `(sprite_row >> shift) & 1 == 1` of the draw inner loop. -/
def colBit (sr shift : Nat) : Bool :=
  decide ((sr >>> shift) &&& 1 = 1)

/-- Pointwise update of the 2-dimensional display array at row `yy`, column
`x`, as performed by `display[yy][x] ^= ...`. -/
def setPixel (d : Nat → Nat → Bool) (yy x : Nat) (b : Bool) : Nat → Nat → Bool :=
  Function.update d yy (Function.update (d yy) x b)

/-- Body of one iteration of the column loop of `operation_d`: collision test
(setting register 15), then XOR of the sprite bit into the framebuffer cell.
At fuel `f + 1` the pixel at `x` uses bit `f` of the sprite row. -/
def drawColsStep (sr yy f x : Nat) (e : Emulator) : Emulator :=
  let sprite_pixel := colBit sr f
  let display_pixel := e.display yy x
  let e1 := if sprite_pixel && display_pixel then
      {e with registers := Function.update e.registers 0xF 1}
    else e
  {e1 with display := setPixel e1.display yy x (Bool.xor display_pixel sprite_pixel)}

/-- Inner column loop of `operation_d`; the write precedes the `x >= 64`
break test, exactly as in the source. -/
def drawCols (sr yy : Nat) : Nat → Nat → Emulator → Emulator
  | 0, _, e => e
  | f + 1, x, e =>
    let e2 := drawColsStep sr yy f x e
    if x + 1 ≥ 64 then e2 else drawCols sr yy f (x + 1) e2

/-- Row loop of `operation_d`: each row re-reads `registers[X]` for its start
column (the source does this inside the loop), reads the sprite byte at
`index + row` (panic when out of bounds), draws 8 columns, and stops once
`y + 1` reaches 32. -/
def drawRows (xr idx : Nat) : Nat → Nat → Nat → Emulator → Option Emulator
  | 0, _, _, e => some e
  | f + 1, r, yy, e =>
    let x := e.registers xr % 64
    if idx + r < 0x1000 then
      let sprite_row := e.memory (idx + r)
      let e2 := drawCols sprite_row yy 8 x e
      if yy + 1 ≥ 32 then some e2 else drawRows xr idx f (r + 1) (yy + 1) e2
    else none

/-- Class 0xD: sprite draw.  Clears register 15 first, computes the start row
from `registers[Y]` (after the clear), then runs the row loop; always reports
a framebuffer change. -/
def Emulator.operation_d (e : Emulator) (i : Instruction) : EmuResult Bool :=
  let e0 := {e with registers := Function.update e.registers 0xF 0}
  let yy := e0.registers i.y % 32
  match drawRows i.x e0.index i.n 0 yy e0 with
  | some e2 => .ok true e2
  | none => .panic

/-- Class 0xE: key skip.  The guard of the source is `registers[X] > 16`, so
the value 16 passes the guard and the keypad access `keypad[16]` panics. -/
def Emulator.operation_e (e : Emulator) (i : Instruction) : EmuResult Bool :=
  if i.nn = 0x9E then
    if e.registers i.x > 16 then .err (.InvalidInstruction i) e
    else if e.registers i.x < 16 then
      .ok false (if e.keypad (e.registers i.x) then {e with pc := e.pc + 2} else e)
    else .panic
  else if i.nn = 0xA1 then
    if e.registers i.x > 16 then .err (.InvalidInstruction i) e
    else if e.registers i.x < 16 then
      .ok false (if e.keypad (e.registers i.x) then e else {e with pc := e.pc + 2})
    else .panic
  else .err (.InvalidInstruction i) e

/-- Ascending scan of the 16-key latch used by `0xFX0A`. -/
def first_pressed (kp : Nat → Bool) : Nat → Nat → Option Nat
  | _, 0 => none
  | i, f + 1 => if kp i then some i else first_pressed kp (i + 1) f

/-- Store loop of `0xFX55`: writes `registers[0..=x]` at `idx..`, `none` on a
Rust indexing panic. -/
def storeRegs (idx : Nat) : Nat → Nat → Emulator → Option Emulator
  | 0, _, e => some e
  | f + 1, i, e =>
    match memWrite e (idx + i) (e.registers i) with
    | some e1 => storeRegs idx f (i + 1) e1
    | none => none

/-- Load loop of `0xFX65`. -/
def loadRegs (idx : Nat) : Nat → Nat → Emulator → Option Emulator
  | 0, _, e => some e
  | f + 1, i, e =>
    if idx + i < 0x1000 then
      loadRegs idx f (i + 1)
        {e with registers := Function.update e.registers i (e.memory (idx + i))}
    else none

/-- Class 0xF: timers, index arithmetic, key wait, glyph lookup, BCD store and
register block transfer, dispatched on NN. -/
def Emulator.operation_f (e : Emulator) (i : Instruction) : EmuResult Bool :=
  match i.nn with
  | 0x07 =>
    .ok false {e with registers := Function.update e.registers i.x e.delay_timer}
  | 0x15 =>
    .ok false {e with delay_timer := e.registers i.x}
  | 0x18 =>
    .ok false {e with sound_timer := e.registers i.x}
  | 0x1E =>
    let idx2 := e.index + e.registers i.x
    if idx2 > 0xFFF then
      .ok false {e with index := idx2 &&& 0xFFF, registers := Function.update e.registers 0xF 1}
    else
      .ok false {e with index := idx2, registers := Function.update e.registers 0xF 0}
  | 0x0A =>
    match first_pressed e.keypad 0 16 with
    | some k => .ok false {e with registers := Function.update e.registers i.x k}
    | none => .ok false {e with pc := e.pc - 2}
  | 0x29 =>
    .ok false {e with index := (e.registers i.x &&& 0xF) * 5 + 0x50}
  | 0x33 =>
    let v := e.registers i.x
    match memWrite e e.index (v / 100) with
    | none => .panic
    | some e1 =>
      match memWrite e1 (e1.index + 1) ((v % 100) / 10) with
      | none => .panic
      | some e2 =>
        match memWrite e2 (e2.index + 2) ((v % 100) % 10) with
        | none => .panic
        | some e3 => .ok false e3
  | 0x55 =>
    match storeRegs e.index (i.x + 1) 0 e with
    | none => .panic
    | some e1 =>
      if e1.increment_i_on_store_and_load then
        .ok false {e1 with index := e1.index + i.x + 1}
      else .ok false e1
  | 0x65 =>
    match loadRegs e.index (i.x + 1) 0 e with
    | none => .panic
    | some e1 =>
      if e1.increment_i_on_store_and_load then
        .ok false {e1 with index := e1.index + i.x + 1}
      else .ok false e1
  | _ => .err (.InvalidInstruction i) e

/-- `execute_opcode`: decode, then dispatch on the operation class. -/
def Emulator.execute_opcode (e : Emulator) (opcode : Nat) : EmuResult Bool :=
  let instruction := Instruction.from_opcode opcode
  match instruction.operation with
  | 0x0 => e.operation_0 instruction
  | 0x1 => e.operation_1 instruction
  | 0x2 => e.operation_2 instruction
  | 0x3 => e.operation_3 instruction
  | 0x4 => e.operation_4 instruction
  | 0x5 => e.operation_5 instruction
  | 0x6 => e.operation_6 instruction
  | 0x7 => e.operation_7 instruction
  | 0x8 => e.operation_8 instruction
  | 0x9 => e.operation_9 instruction
  | 0xA => e.operation_a instruction
  | 0xB => e.operation_b instruction
  | 0xC => e.operation_c instruction
  | 0xD => e.operation_d instruction
  | 0xE => e.operation_e instruction
  | 0xF => e.operation_f instruction
  | _ => .err (.InvalidInstruction instruction) e

/-- `step`: fetch then execute. -/
def Emulator.step (e : Emulator) : EmuResult Bool :=
  match e.fetch_opcode with
  | .ok opcode e2 => e2.execute_opcode opcode
  | .err er st => .err er st
  | .panic => .panic

/-- Driver loop: run `step` the given number of times, propagating errors and
panics. -/
def Emulator.steps (e : Emulator) : Nat → EmuResult Bool
  | 0 => .ok false e
  | k + 1 =>
    match e.step with
    | .ok b e2 => if k = 0 then .ok b e2 else e2.steps k
    | .err er st => .err er st
    | .panic => .panic

/-- All-zero machine state used to build concrete test states. -/
def zeroEmu : Emulator :=
  { memory := fun _ => 0
    display := fun _ _ => false
    pc := 0x200
    index := 0
    stack := fun _ => 0
    sp := 0
    delay_timer := 0
    sound_timer := 0
    registers := fun _ => 0
    keypad := fun _ => false
    shift_sets_vx := false
    jump_with_offset_bug_emulation := false
    increment_i_on_store_and_load := false
    rng := fun _ => 0
    rng_used := 0 }

/-- Analysis helper mirroring the column loop of `drawCols`: whether the loop
starting at column `x` with fuel `f` meets a lit sprite bit over a lit pixel
of the framebuffer `d`. -/
def rowHit (sr : Nat) (d : Nat → Nat → Bool) (yy : Nat) : Nat → Nat → Bool
  | 0, _ => false
  | f + 1, x =>
    (colBit sr f && d yy x) || (if x + 1 ≥ 64 then false else rowHit sr d yy f (x + 1))

/-- Analysis helper mirroring the row loop of `drawRows`: whether any drawn
sprite row collides, reading sprite bytes from `m` at `idx + r` and pixels
from `d` (the framebuffer as it was before the draw; rows are pairwise
distinct, so this matches the loop's incremental reads). -/
def multiHit (m : Nat → Nat) (d : Nat → Nat → Bool) (idx x0 : Nat) : Nat → Nat → Nat → Bool
  | 0, _, _ => false
  | f + 1, r, yy =>
    rowHit (m (idx + r)) d yy 8 x0 ||
      (if yy + 1 ≥ 32 then false else multiHit m d idx x0 f (r + 1) (yy + 1))

/-- Machine state with register 15 set to 1 and all else zero, exercising the
flag/operand aliasing of the arithmetic instructions. -/
def c5state : Emulator :=
  {zeroEmu with registers := Function.update (fun _ => 0) 15 1}

/-- Machine state with pixel (0,0) lit and a two-row sprite `0x80, 0x80` at
memory 0; used with a draw instruction whose X operand is register 15. -/
def c6state : Emulator :=
  {zeroEmu with
    display := setPixel (fun _ _ => false) 0 0 true
    memory := Function.update (Function.update (fun _ => 0) 0 0x80) 1 0x80}

/-- Draw instruction with X = 15 (the flags register) and N = 2 rows. -/
def c6instr : Instruction := ⟨0xD, 15, 0, 2, 2, 0xF02⟩

/-- Machine state of the quirk scenario: register 1 = 0x80, register 2 = 0x01,
shift quirk enabled. -/
def c7on : Emulator :=
  {zeroEmu with registers := Function.update (Function.update (fun _ => 0) 1 0x80) 2 0x01,
                shift_sets_vx := true}

/-- The same state with the shift quirk disabled. -/
def c7off : Emulator := {c7on with shift_sets_vx := false}

/-! ### Theorems -/

/-- C1: the claim says `step()` fails with `ProgramCounterOutOfBounds` whenever
the fetch address or its successor byte is outside the 4096-byte memory, in
particular at program counter 0xFFF.  The source only checks `pc >= 4096`
before indexing `memory[pc + 1]`, so at pc = 0xFFF the fetch panics with an
out-of-bounds index instead of returning the error. -/
theorem step_panics_at_pc_4095 (e : Emulator) (h : e.pc = 4095) :
    e.fetch_opcode = .panic ∧ e.step = .panic := by
  have hf : e.fetch_opcode = .panic := by
    simp [Emulator.fetch_opcode, memRead, h]
  exact ⟨hf, by simp [Emulator.step, hf]⟩

/-- Witness for `step_panics_at_pc_4095` at a concrete state. -/
theorem step_panics_at_pc_4095_witness :
    ({zeroEmu with pc := 4095} : Emulator).pc = 4095 ∧
      (({zeroEmu with pc := 4095} : Emulator).fetch_opcode = .panic ∧
        ({zeroEmu with pc := 4095} : Emulator).step = .panic) :=
  ⟨rfl, step_panics_at_pc_4095 {zeroEmu with pc := 4095} rfl⟩

/-- C2: the claim says a call fails with `StackOverflow` exactly at stack
pointer 128 and that the failure path leaves the state unchanged.  The source
pushes before checking: with stack pointer 127 it reports `StackOverflow`
after having written `stack[127]` and incremented the pointer to 128, and with
stack pointer 128 the push itself panics. -/
theorem call_at_full_stack (e e2 : Emulator) (i : Instruction)
    (h127 : e.sp = 127) (h128 : e2.sp = 128) :
    (∃ st, e.operation_2 i = .err .StackOverflow st ∧
      st.sp = 128 ∧ st.stack 127 = e.pc ∧ st.pc = e.pc) ∧
    e2.operation_2 i = .panic := by
  constructor
  · refine ⟨{e with stack := Function.update e.stack 127 e.pc, sp := 128}, ?_, rfl, ?_, rfl⟩
    · simp [Emulator.operation_2, h127]
    · simp [Function.update_same]
  · simp [Emulator.operation_2, h128]

/-- Witness for `call_at_full_stack` at concrete states. -/
theorem call_at_full_stack_witness :
    ({zeroEmu with sp := 127} : Emulator).sp = 127 ∧
      ({zeroEmu with sp := 128} : Emulator).sp = 128 ∧
      ((∃ st, ({zeroEmu with sp := 127} : Emulator).operation_2 ⟨2, 0, 0, 0, 0, 0x123⟩ =
            .err .StackOverflow st ∧
          st.sp = 128 ∧ st.stack 127 = ({zeroEmu with sp := 127} : Emulator).pc ∧
          st.pc = ({zeroEmu with sp := 127} : Emulator).pc) ∧
        ({zeroEmu with sp := 128} : Emulator).operation_2 ⟨2, 0, 0, 0, 0, 0x123⟩ = .panic) :=
  ⟨rfl, rfl,
    call_at_full_stack {zeroEmu with sp := 127} {zeroEmu with sp := 128}
      ⟨2, 0, 0, 0, 0, 0x123⟩ rfl rfl⟩

/-- C3: the claim says a key-skip with `registers[X] = 16` fails with
`InvalidInstruction` so that the 16-entry latch is never indexed out of
bounds.  The source's guard is `registers[X] > 16`, which lets 16 through, and
the latch access `keypad[16]` then panics. -/
theorem key_skip_panics_at_register_16 (e : Emulator) (i : Instruction)
    (hnn : i.nn = 0x9E ∨ i.nn = 0xA1) (h16 : e.registers i.x = 16) :
    e.operation_e i = .panic := by
  rcases hnn with h | h <;> simp [Emulator.operation_e, h, h16]

/-- Witness for `key_skip_panics_at_register_16` at a concrete state. -/
theorem key_skip_panics_at_register_16_witness :
    ((⟨0xE, 3, 0, 0, 0x9E, 0⟩ : Instruction).nn = 0x9E ∨
      (⟨0xE, 3, 0, 0, 0x9E, 0⟩ : Instruction).nn = 0xA1) ∧
    ({zeroEmu with registers := Function.update (fun _ => 0) 3 16} : Emulator).registers
      (⟨0xE, 3, 0, 0, 0x9E, 0⟩ : Instruction).x = 16 ∧
    ({zeroEmu with registers := Function.update (fun _ => 0) 3 16} : Emulator).operation_e
      ⟨0xE, 3, 0, 0, 0x9E, 0⟩ = .panic :=
  ⟨Or.inl rfl, rfl,
    key_skip_panics_at_register_16 {zeroEmu with registers := Function.update (fun _ => 0) 3 16}
      ⟨0xE, 3, 0, 0, 0x9E, 0⟩ (Or.inl rfl) rfl⟩

/-- C4: the claim says every memory access of an instruction handler stays at
or below 0xFFF in every reachable state.  The program `AFFF F033` (set index
to 0xFFF, then BCD-store) is accepted by the constructor, and its second step
writes `memory[0x1000]` and `memory[0x1001]`: the run panics on an
out-of-bounds memory index. -/
theorem bcd_write_out_of_bounds_run :
    (Emulator.init [0xAF, 0xFF, 0xF0, 0x33] false false false).steps 2 = .panic := by
  rfl

/-- C5 counterexample: with register 15 = 1 and register 0 = 0, the add
instruction `0x8F04` (X = 15) must, per the claim, store the sum 1 into
register X = 15; the code's flag write lands last, leaving register 15 = 0. -/
theorem add_flag_overwrites_vF_sum :
    ∃ eA, c5state.operation_8 ⟨8, 15, 0, 4, 0, 0⟩ = .ok false eA ∧
      eA.registers 15 = 0 ∧
      (c5state.registers 15 + c5state.registers 0) % 256 = 1 :=
  ⟨_, rfl, rfl, rfl⟩

/-- C5 amended: for all register pairs, add-with-carry stores the sum mod 256
into register X and then writes the carry into register 15, and
subtract-with-borrow stores the 8-bit-wrapped difference and then writes the
no-borrow flag into register 15; when X = 15 the flag write supersedes the
stored result, so the stored-result clause holds for X distinct from 15
(Y = 15 is fine: both operands are read before any write). -/
theorem add_sub_carry_borrow_spec (e : Emulator) (x y nn nnn : Nat)
    (hx : x < 16) (hy : y < 16)
    (hvx : e.registers x < 256) (hvy : e.registers y < 256) :
    (∃ eA, e.operation_8 ⟨8, x, y, 4, nn, nnn⟩ = .ok false eA ∧
      eA.registers 15 = (if 255 < e.registers x + e.registers y then 1 else 0) ∧
      (x ≠ 15 → eA.registers x = (e.registers x + e.registers y) % 256)) ∧
    (∃ eS, e.operation_8 ⟨8, x, y, 5, nn, nnn⟩ = .ok false eS ∧
      eS.registers 15 = (if e.registers x < e.registers y then 0 else 1) ∧
      (x ≠ 15 → eS.registers x = (e.registers x + 256 - e.registers y) % 256)) := by
  constructor
  · refine ⟨_, rfl, ?_, ?_⟩
    · simp [Function.update_same]
    · intro h15
      simp [Function.update_noteq h15, Function.update_same]
  · refine ⟨_, rfl, ?_, ?_⟩
    · simp [Function.update_same]
    · intro h15
      simp [Function.update_noteq h15, Function.update_same]

/-- Witness for `add_sub_carry_borrow_spec` at a concrete state. -/
theorem add_sub_carry_borrow_spec_witness :
    (3 : Nat) < 16 ∧ (0 : Nat) < 16 ∧ c5state.registers 3 < 256 ∧ c5state.registers 0 < 256 ∧
    ((∃ eA, c5state.operation_8 ⟨8, 3, 0, 4, 0, 0⟩ = .ok false eA ∧
      eA.registers 15 = (if 255 < c5state.registers 3 + c5state.registers 0 then 1 else 0) ∧
      (3 ≠ 15 → eA.registers 3 = (c5state.registers 3 + c5state.registers 0) % 256)) ∧
    (∃ eS, c5state.operation_8 ⟨8, 3, 0, 5, 0, 0⟩ = .ok false eS ∧
      eS.registers 15 = (if c5state.registers 3 < c5state.registers 0 then 0 else 1) ∧
      (3 ≠ 15 → eS.registers 3 = (c5state.registers 3 + 256 - c5state.registers 0) % 256))) :=
  ⟨by decide, by decide, by decide, by decide,
    add_sub_carry_borrow_spec c5state 3 0 0 0 (by decide) (by decide) (by decide) (by decide)⟩

/-- C7: quirk scenario for the left-shift instruction `0x812E` with register
1 = 0x80 and register 2 = 0x01: with the shift quirk enabled register 1
becomes 0x02 and register 15 is 0; with it disabled register 1 becomes 0x00
and register 15 is 1. -/
theorem shift_quirk_scenario :
    (∃ e1, c7on.execute_opcode 0x812E = .ok false e1 ∧
      e1.registers 1 = 0x02 ∧ e1.registers 15 = 0) ∧
    (∃ e2, c7off.execute_opcode 0x812E = .ok false e2 ∧
      e2.registers 1 = 0x00 ∧ e2.registers 15 = 1) :=
  ⟨⟨_, rfl, rfl, rfl⟩, ⟨_, rfl, rfl, rfl⟩⟩

/-- C9: the decoder produces operand fields with `operation`, `x`, `y`, `n`
below 16 and `nnn` below 4096 for every 16-bit opcode, so register-array
accesses through X and Y are in bounds. -/
theorem from_opcode_field_bounds (opcode : Nat) (h : opcode < 65536) :
    (Instruction.from_opcode opcode).operation < 16 ∧
    (Instruction.from_opcode opcode).x < 16 ∧
    (Instruction.from_opcode opcode).y < 16 ∧
    (Instruction.from_opcode opcode).n < 16 ∧
    (Instruction.from_opcode opcode).nnn < 4096 := by
  have hop : opcode &&& 0xF000 ≤ 0xF000 := Nat.and_le_right
  have hx : opcode &&& 0x0F00 ≤ 0x0F00 := Nat.and_le_right
  have hy : opcode &&& 0x00F0 ≤ 0x00F0 := Nat.and_le_right
  have hn : opcode &&& 0x000F ≤ 0x000F := Nat.and_le_right
  have hnnn : opcode &&& 0x0FFF ≤ 0x0FFF := Nat.and_le_right
  refine ⟨?_, ?_, ?_, ?_, ?_⟩
  · have h1 : (opcode &&& 0xF000) / 4096 ≤ 0xF000 / 4096 := Nat.div_le_div_right hop
    have h2 : (Instruction.from_opcode opcode).operation = (opcode &&& 0xF000) / 4096 := by
      show (opcode &&& 0xF000) >>> 12 = (opcode &&& 0xF000) / 4096
      rw [Nat.shiftRight_eq_div_pow]
    rw [h2]
    omega
  · have h1 : (opcode &&& 0x0F00) / 256 ≤ 0x0F00 / 256 := Nat.div_le_div_right hx
    have h2 : (Instruction.from_opcode opcode).x = (opcode &&& 0x0F00) / 256 := by
      show (opcode &&& 0x0F00) >>> 8 = (opcode &&& 0x0F00) / 256
      rw [Nat.shiftRight_eq_div_pow]
    rw [h2]
    omega
  · have h1 : (opcode &&& 0x00F0) / 16 ≤ 0x00F0 / 16 := Nat.div_le_div_right hy
    have h2 : (Instruction.from_opcode opcode).y = (opcode &&& 0x00F0) / 16 := by
      show (opcode &&& 0x00F0) >>> 4 = (opcode &&& 0x00F0) / 16
      rw [Nat.shiftRight_eq_div_pow]
    rw [h2]
    omega
  · simp only [Instruction.from_opcode]
    omega
  · simp only [Instruction.from_opcode]
    omega

/-- Witness for `from_opcode_field_bounds` at a concrete opcode. -/
theorem from_opcode_field_bounds_witness :
    (0xABCD : Nat) < 65536 ∧
    ((Instruction.from_opcode 0xABCD).operation < 16 ∧
      (Instruction.from_opcode 0xABCD).x < 16 ∧
      (Instruction.from_opcode 0xABCD).y < 16 ∧
      (Instruction.from_opcode 0xABCD).n < 16 ∧
      (Instruction.from_opcode 0xABCD).nnn < 4096) :=
  ⟨by decide, from_opcode_field_bounds 0xABCD (by decide)⟩

/-- C10: the class-5 and class-9 register-compare skips never fail and ignore
the low nibble entirely: an instruction with any N behaves exactly as the
N = 0 form, skipping on equality (class 5) or inequality (class 9). -/
theorem skip_5_9_ignore_low_nibble (e : Emulator) (x y n nn nnn : Nat)
    (hx : x < 16) (hy : y < 16) :
    e.operation_5 ⟨5, x, y, n, nn, nnn⟩ = e.operation_5 ⟨5, x, y, 0, nn, nnn⟩ ∧
    e.operation_5 ⟨5, x, y, n, nn, nnn⟩ =
      .ok false (if e.registers x = e.registers y then {e with pc := e.pc + 2} else e) ∧
    e.operation_9 ⟨9, x, y, n, nn, nnn⟩ = e.operation_9 ⟨9, x, y, 0, nn, nnn⟩ ∧
    e.operation_9 ⟨9, x, y, n, nn, nnn⟩ =
      .ok false (if e.registers x = e.registers y then e else {e with pc := e.pc + 2}) :=
  ⟨rfl, rfl, rfl, rfl⟩

/-- Witness for `skip_5_9_ignore_low_nibble` at a concrete state. -/
theorem skip_5_9_ignore_low_nibble_witness :
    (0 : Nat) < 16 ∧ (1 : Nat) < 16 ∧
    (zeroEmu.operation_5 ⟨5, 0, 1, 7, 0, 0⟩ = zeroEmu.operation_5 ⟨5, 0, 1, 0, 0, 0⟩ ∧
      zeroEmu.operation_5 ⟨5, 0, 1, 7, 0, 0⟩ =
        .ok false (if zeroEmu.registers 0 = zeroEmu.registers 1 then
          {zeroEmu with pc := zeroEmu.pc + 2} else zeroEmu) ∧
      zeroEmu.operation_9 ⟨9, 0, 1, 7, 0, 0⟩ = zeroEmu.operation_9 ⟨9, 0, 1, 0, 0, 0⟩ ∧
      zeroEmu.operation_9 ⟨9, 0, 1, 7, 0, 0⟩ =
        .ok false (if zeroEmu.registers 0 = zeroEmu.registers 1 then zeroEmu
          else {zeroEmu with pc := zeroEmu.pc + 2})) :=
  ⟨by decide, by decide, skip_5_9_ignore_low_nibble zeroEmu 0 1 7 0 0 (by decide) (by decide)⟩

/-- Pointwise description of the sequential byte store: inside the written
window the list byte is returned, outside it the original memory. -/
theorem storeList_apply (l : List Nat) : ∀ (m : Nat → Nat) (b a : Nat),
    storeList m b l a = if b ≤ a ∧ a < b + l.length then l.getD (a - b) 0 else m a := by
  induction l with
  | nil =>
    intro m b a
    rw [storeList, if_neg]
    simp only [List.length_nil]
    omega
  | cons hd tl ih =>
    intro m b a
    rw [storeList, ih]
    by_cases hc : b + 1 ≤ a ∧ a < b + 1 + tl.length
    · rw [if_pos hc, if_pos (by simp only [List.length_cons]; omega)]
      have hab : a - b = (a - (b + 1)) + 1 := by omega
      rw [hab, List.getD_cons_succ]
    · rw [if_neg hc]
      by_cases hab : a = b
      · subst hab
        rw [Function.update_same, if_pos (by simp only [List.length_cons]; omega)]
        simp
      · rw [Function.update_noteq hab, if_neg]
        simp only [List.length_cons]
        omega

/-- C8: for every program of at most 3584 bytes and any quirk flags, the
constructor succeeds with the program bytes unchanged at 0x200, the glyph
table at 0x50, and registers, index, stack, stack pointer, timers,
framebuffer and input latch zero-initialised; larger programs are rejected
with `ProgramTooLarge`. -/
theorem new_loads_program_and_font (program : List Nat) (q1 q2 q3 : Bool) :
    (program.length ≤ 3584 →
      ∃ m, Emulator.new program q1 q2 q3 = .ok m ∧
        (∀ k, k < program.length → m.memory (0x200 + k) = program.getD k 0) ∧
        (∀ k, k < 80 → m.memory (0x50 + k) = FONT.getD k 0) ∧
        (∀ r, m.registers r = 0) ∧ m.index = 0 ∧ (∀ s, m.stack s = 0) ∧ m.sp = 0 ∧
        m.delay_timer = 0 ∧ m.sound_timer = 0 ∧
        (∀ yy xx, m.display yy xx = false) ∧ (∀ k, m.keypad k = false)) ∧
    (3584 < program.length →
      Emulator.new program q1 q2 q3 = .error (.ProgramTooLarge program.length)) := by
  constructor
  · intro hlen
    refine ⟨Emulator.init program q1 q2 q3, ?_, ?_, ?_, fun _ => rfl, rfl, fun _ => rfl,
      rfl, rfl, rfl, fun _ _ => rfl, fun _ => rfl⟩
    · rw [Emulator.new, if_neg (by omega)]
    · intro k hk
      show storeList (storeList (fun _ => 0) 0x200 program) 0x50 FONT (0x200 + k) =
        program.getD k 0
      rw [storeList_apply, if_neg (by rw [show FONT.length = 80 from rfl]; omega),
        storeList_apply, if_pos (by omega), show 0x200 + k - 0x200 = k by omega]
    · intro k hk
      show storeList (storeList (fun _ => 0) 0x200 program) 0x50 FONT (0x50 + k) =
        FONT.getD k 0
      rw [storeList_apply, if_pos (by rw [show FONT.length = 80 from rfl]; omega),
        show 0x50 + k - 0x50 = k by omega]
  · intro hlen
    rw [Emulator.new, if_pos (by omega)]

/-- Witness for `new_loads_program_and_font` at a concrete two-byte program. -/
theorem new_loads_program_and_font_witness :
    ∃ m, Emulator.new [0xAB, 0xCD] true false true = .ok m ∧
      m.memory (0x200 + 0) = [0xAB, 0xCD].getD 0 0 ∧ m.sp = 0 := by
  obtain ⟨m, hm, hmem, hfont, hreg, hidx, hstack, hsp, hdt, hst, hdisp, hkey⟩ :=
    (new_loads_program_and_font [0xAB, 0xCD] true false true).1 (by norm_num)
  exact ⟨m, hm, hmem 0 (by norm_num), hsp⟩
/-- C6 counterexample: with X = 15 the draw instruction's start column is read
from the flags register, which the draw itself mutates, so drawing the sprite
`0x80,0x80` twice from `c6state` does not restore the framebuffer: pixel
(1,0) ends lit although it was clear before the first draw. -/
theorem draw_twice_not_involutive_with_vF_operand :
    ∃ e1 e2, c6state.operation_d c6instr = .ok true e1 ∧
      e1.operation_d c6instr = .ok true e2 ∧
      e2.display 1 0 = true ∧ c6state.display 1 0 = false :=
  ⟨_, _, rfl, rfl, rfl, rfl⟩

/-- Row `y2` of the display other than `yy` is untouched by `setPixel`. -/
theorem setPixel_row_ne (d : Nat → Nat → Bool) (yy x : Nat) (b : Bool) (y2 : Nat)
    (h : y2 ≠ yy) : setPixel d yy x b y2 = d y2 :=
  Function.update_noteq h _ _

/-- Row `yy` of the display after `setPixel` in pointwise form. -/
theorem setPixel_row_eq (d : Nat → Nat → Bool) (yy x : Nat) (b : Bool) (x2 : Nat) :
    setPixel d yy x b yy x2 = if x2 = x then b else d yy x2 := by
  show Function.update d yy (Function.update (d yy) x b) yy x2 = _
  rw [Function.update_same]
  by_cases h : x2 = x
  · subst h
    rw [Function.update_same, if_pos rfl]
  · rw [Function.update_noteq h, if_neg h]

/-- Display of the column-loop body. -/
theorem drawColsStep_display (sr yy f x : Nat) (e : Emulator) :
    (drawColsStep sr yy f x e).display =
      setPixel e.display yy x (Bool.xor (e.display yy x) (colBit sr f)) := by
  simp only [drawColsStep]
  split_ifs <;> rfl

/-- Registers of the column-loop body. -/
theorem drawColsStep_registers (sr yy f x : Nat) (e : Emulator) :
    (drawColsStep sr yy f x e).registers =
      if colBit sr f && e.display yy x then Function.update e.registers 15 1
      else e.registers := by
  simp only [drawColsStep]
  split_ifs <;> rfl

/-- The column-loop body leaves memory and the index register unchanged. -/
theorem drawColsStep_frame (sr yy f x : Nat) (e : Emulator) :
    (drawColsStep sr yy f x e).memory = e.memory ∧
    (drawColsStep sr yy f x e).index = e.index := by
  simp only [drawColsStep]
  split_ifs <;> exact ⟨rfl, rfl⟩

/-- The column loop only mutates register 15 and row `yy` of the display. -/
theorem drawCols_frame (sr yy : Nat) : ∀ (f x : Nat) (e : Emulator),
    (drawCols sr yy f x e).memory = e.memory ∧
    (drawCols sr yy f x e).index = e.index ∧
    (∀ j, j ≠ 15 → (drawCols sr yy f x e).registers j = e.registers j) ∧
    (∀ y2, y2 ≠ yy → (drawCols sr yy f x e).display y2 = e.display y2) := by
  intro f
  induction f with
  | zero => intro x e; exact ⟨rfl, rfl, fun _ _ => rfl, fun _ _ => rfl⟩
  | succ f ih =>
    intro x e
    have hstep : ∀ (e0 : Emulator),
        (drawColsStep sr yy f x e0).memory = e0.memory ∧
        (drawColsStep sr yy f x e0).index = e0.index ∧
        (∀ j, j ≠ 15 → (drawColsStep sr yy f x e0).registers j = e0.registers j) ∧
        (∀ y2, y2 ≠ yy → (drawColsStep sr yy f x e0).display y2 = e0.display y2) := by
      intro e0
      refine ⟨(drawColsStep_frame sr yy f x e0).1, (drawColsStep_frame sr yy f x e0).2,
        fun j hj => ?_, fun y2 hy2 => ?_⟩
      · rw [drawColsStep_registers]
        split_ifs with hc
        · exact Function.update_noteq hj _ _
        · rfl
      · rw [drawColsStep_display]
        exact setPixel_row_ne _ _ _ _ _ hy2
    rw [drawCols]
    by_cases hbr : x + 1 ≥ 64
    · rw [if_pos hbr]
      exact hstep e
    · rw [if_neg hbr]
      obtain ⟨hm, hi, hr, hd⟩ := ih (x + 1) (drawColsStep sr yy f x e)
      obtain ⟨sm, si, sr2, sd⟩ := hstep e
      exact ⟨hm.trans sm, hi.trans si,
        fun j hj => (hr j hj).trans (sr2 j hj),
        fun y2 hy2 => (hd y2 hy2).trans (sd y2 hy2)⟩

/-- Pointwise form of row `yy` of the display after the column loop. -/
theorem drawCols_display_row (sr yy : Nat) : ∀ (f x : Nat) (e : Emulator), x < 64 →
    ∀ x2, (drawCols sr yy f x e).display yy x2 =
      if x ≤ x2 ∧ x2 < x + f ∧ x2 < 64 then
        Bool.xor (e.display yy x2) (colBit sr (f - 1 - (x2 - x)))
      else e.display yy x2 := by
  intro f
  induction f with
  | zero =>
    intro x e hx x2
    rw [drawCols, if_neg (by omega)]
  | succ f ih =>
    intro x e hx x2
    rw [drawCols]
    by_cases hbr : x + 1 ≥ 64
    · rw [if_pos hbr, drawColsStep_display, setPixel_row_eq]
      by_cases h2 : x2 = x
      · subst h2
        rw [if_pos rfl, if_pos (by omega), show f + 1 - 1 - (x2 - x2) = f by omega]
      · rw [if_neg h2, if_neg (by omega)]
    · rw [if_neg hbr, ih (x + 1) (drawColsStep sr yy f x e) (by omega) x2,
        drawColsStep_display, setPixel_row_eq]
      by_cases h1 : x + 1 ≤ x2 ∧ x2 < x + 1 + f ∧ x2 < 64
      · rw [if_pos h1, if_neg (show x2 ≠ x by omega), if_pos (by omega),
          show f - 1 - (x2 - (x + 1)) = f + 1 - 1 - (x2 - x) by omega]
      · rw [if_neg h1]
        by_cases h2 : x2 = x
        · subst h2
          rw [if_pos rfl, if_pos (by omega), show f + 1 - 1 - (x2 - x2) = f by omega]
        · rw [if_neg h2, if_neg (by omega)]

/-- `rowHit` only depends on the display values at columns at or right of the
start column. -/
theorem rowHit_congr (sr : Nat) (d1 d2 : Nat → Nat → Bool) (yy : Nat) :
    ∀ (f x : Nat), (∀ j, x ≤ j → d1 yy j = d2 yy j) →
      rowHit sr d1 yy f x = rowHit sr d2 yy f x := by
  intro f
  induction f with
  | zero => intro x h; rfl
  | succ f ih =>
    intro x h
    rw [rowHit, rowHit, h x le_rfl]
    by_cases hbr : x + 1 ≥ 64
    · rw [if_pos hbr, if_pos hbr]
    · rw [if_neg hbr, if_neg hbr, ih (x + 1) (fun j hj => h j (by omega))]

/-- Register 15 after the column loop: set to 1 exactly when `rowHit` reports
a collision against the pre-loop display. -/
theorem drawCols_vF (sr yy : Nat) : ∀ (f x : Nat) (e : Emulator), x < 64 →
    (drawCols sr yy f x e).registers 15 =
      if rowHit sr e.display yy f x then 1 else e.registers 15 := by
  intro f
  induction f with
  | zero =>
    intro x e hx
    rw [drawCols, rowHit, if_neg (by simp)]
  | succ f ih =>
    intro x e hx
    rw [drawCols, rowHit]
    by_cases hbr : x + 1 ≥ 64
    · rw [if_pos hbr, if_pos hbr, drawColsStep_registers]
      by_cases hcol : (colBit sr f && e.display yy x) = true
      · rw [hcol]
        simp [Function.update_same]
      · simp only [Bool.not_eq_true] at hcol
        rw [hcol]
        simp
    · rw [if_neg hbr, if_neg hbr,
        ih (x + 1) (drawColsStep sr yy f x e) (by omega),
        drawColsStep_registers,
        rowHit_congr sr (drawColsStep sr yy f x e).display e.display yy f (x + 1)
          (fun j hj => by rw [drawColsStep_display, setPixel_row_eq, if_neg (by omega)])]
      by_cases hcol : (colBit sr f && e.display yy x) = true <;>
        by_cases hrh : rowHit sr e.display yy f (x + 1) = true <;>
          simp [hcol, hrh, Function.update_same]

/-- `multiHit` only depends on display rows at or below the start row. -/
theorem multiHit_congr (m : Nat → Nat) (idx x0 : Nat) (d1 d2 : Nat → Nat → Bool) :
    ∀ (f r yy : Nat), (∀ y2, yy ≤ y2 → d1 y2 = d2 y2) →
      multiHit m d1 idx x0 f r yy = multiHit m d2 idx x0 f r yy := by
  intro f
  induction f with
  | zero => intro r yy h; rfl
  | succ f ih =>
    intro r yy h
    rw [multiHit, multiHit,
      rowHit_congr (m (idx + r)) d1 d2 yy 8 x0 (fun j _ => congrFun (h yy le_rfl) j)]
    by_cases hyl : yy + 1 ≥ 32
    · rw [if_pos hyl, if_pos hyl]
    · rw [if_neg hyl, if_neg hyl, ih (r + 1) (yy + 1) (fun y2 hy2 => h y2 (by omega))]

/-- Closed form of the row loop: for a non-flag X operand and in-bounds sprite
memory, the loop succeeds, leaves memory, index and the non-flag registers
unchanged, XORs the sprite bits into the drawn rectangle of the framebuffer
(rows clipped at 32, columns at 64), and sets register 15 exactly when
`multiHit` reports a collision. -/
theorem drawRows_spec (xr idx : Nat) (hxr : xr ≠ 15) :
    ∀ (f r yy : Nat) (e : Emulator), yy < 32 → idx + r + f ≤ 4096 →
    ∃ e2, drawRows xr idx f r yy e = some e2 ∧
      e2.memory = e.memory ∧
      e2.index = e.index ∧
      (∀ j, j ≠ 15 → e2.registers j = e.registers j) ∧
      (∀ y2 x2, e2.display y2 x2 =
        if yy ≤ y2 ∧ y2 < yy + min f (32 - yy) ∧
            e.registers xr % 64 ≤ x2 ∧ x2 < e.registers xr % 64 + 8 ∧ x2 < 64 then
          Bool.xor (e.display y2 x2)
            (colBit (e.memory (idx + r + (y2 - yy))) (7 - (x2 - e.registers xr % 64)))
        else e.display y2 x2) ∧
      (e2.registers 15 =
        if multiHit e.memory e.display idx (e.registers xr % 64) f r yy then 1
        else e.registers 15) := by
  intro f
  induction f with
  | zero =>
    intro r yy e hy hb
    refine ⟨e, rfl, rfl, rfl, fun _ _ => rfl, fun y2 x2 => ?_, ?_⟩
    · rw [if_neg (by omega)]
    · rw [multiHit, if_neg (by simp)]
  | succ f ih =>
    intro r yy e hy hb
    have hx0 : e.registers xr % 64 < 64 := Nat.mod_lt _ (by omega)
    obtain ⟨cm, ci, cr, cd⟩ := drawCols_frame (e.memory (idx + r)) yy 8 (e.registers xr % 64) e
    have cvF := drawCols_vF (e.memory (idx + r)) yy 8 (e.registers xr % 64) e hx0
    have crow := drawCols_display_row (e.memory (idx + r)) yy 8 (e.registers xr % 64) e hx0
    simp only [drawRows]
    rw [if_pos (show idx + r < 0x1000 by omega)]
    by_cases hyl : yy + 1 ≥ 32
    · rw [if_pos hyl]
      refine ⟨_, rfl, cm, ci, cr, fun y2 x2 => ?_, ?_⟩
      · by_cases hy2 : y2 = yy
        · subst hy2
          rw [crow x2]
          by_cases hcx : e.registers xr % 64 ≤ x2 ∧ x2 < e.registers xr % 64 + 8 ∧ x2 < 64
          · rw [if_pos hcx, if_pos (by omega),
              show idx + r + (y2 - y2) = idx + r by omega,
              show 8 - 1 - (x2 - e.registers xr % 64) = 7 - (x2 - e.registers xr % 64) by omega]
          · rw [if_neg hcx, if_neg (by omega)]
        · rw [congrFun (cd y2 hy2) x2, if_neg (by omega)]
      · rw [cvF, multiHit, if_pos hyl, Bool.or_false]
    · rw [if_neg hyl]
      obtain ⟨e3, hrun, hm, hi, hr, hdisp, hvF⟩ :=
        ih (r + 1) (yy + 1) (drawCols (e.memory (idx + r)) yy 8 (e.registers xr % 64) e)
          (by omega) (by omega)
      refine ⟨e3, hrun, hm.trans cm, hi.trans ci,
        fun j hj => (hr j hj).trans (cr j hj), fun y2 x2 => ?_, ?_⟩
      · rw [hdisp y2 x2, cr xr hxr, cm]
        by_cases hy2 : y2 = yy
        · subst hy2
          rw [if_neg (by omega), crow x2]
          by_cases hcx : e.registers xr % 64 ≤ x2 ∧ x2 < e.registers xr % 64 + 8 ∧ x2 < 64
          · rw [if_pos hcx, if_pos (by omega),
              show idx + r + (y2 - y2) = idx + r by omega,
              show 8 - 1 - (x2 - e.registers xr % 64) = 7 - (x2 - e.registers xr % 64) by omega]
          · rw [if_neg hcx, if_neg (by omega)]
        · rw [congrFun (cd y2 hy2) x2]
          by_cases h1 : yy + 1 ≤ y2 ∧ y2 < yy + 1 + min f (32 - (yy + 1)) ∧
              e.registers xr % 64 ≤ x2 ∧ x2 < e.registers xr % 64 + 8 ∧ x2 < 64
          · rw [if_pos h1, if_pos (by omega),
              show idx + (r + 1) + (y2 - (yy + 1)) = idx + r + (y2 - yy) by omega]
          · rw [if_neg h1, if_neg (by omega)]
      · rw [hvF, cm, cr xr hxr,
          multiHit_congr e.memory idx (e.registers xr % 64)
            (drawCols (e.memory (idx + r)) yy 8 (e.registers xr % 64) e).display e.display
            f (r + 1) (yy + 1) (fun y2 hy2 => cd y2 (by omega)),
          cvF, multiHit, if_neg hyl]
        by_cases hA : multiHit e.memory e.display idx (e.registers xr % 64) f (r + 1) (yy + 1) = true <;>
          by_cases hB : rowHit (e.memory (idx + r)) e.display yy 8 (e.registers xr % 64) = true <;>
            simp [hA, hB]

/-- Existential characterisation of `rowHit`. -/
theorem rowHit_iff (sr : Nat) (d : Nat → Nat → Bool) (yy : Nat) :
    ∀ (f x : Nat), x < 64 →
      (rowHit sr d yy f x = true ↔
        ∃ j, j < f ∧ x + j < 64 ∧ colBit sr (f - 1 - j) = true ∧ d yy (x + j) = true) := by
  intro f
  induction f with
  | zero =>
    intro x hx
    rw [rowHit]
    simp
  | succ f ih =>
    intro x hx
    rw [rowHit]
    by_cases hbr : x + 1 ≥ 64
    · rw [if_pos hbr]
      simp only [Bool.or_false, Bool.and_eq_true]
      constructor
      · rintro ⟨hc, hd⟩
        exact ⟨0, by omega, by omega, by rw [show f + 1 - 1 - 0 = f by omega]; exact hc,
          by rw [Nat.add_zero]; exact hd⟩
      · rintro ⟨j, hj, hxj, hc, hd⟩
        have hj0 : j = 0 := by omega
        subst hj0
        rw [show f + 1 - 1 - 0 = f by omega] at hc
        rw [Nat.add_zero] at hd
        exact ⟨hc, hd⟩
    · rw [if_neg hbr]
      simp only [Bool.or_eq_true, Bool.and_eq_true, ih (x + 1) (by omega)]
      constructor
      · rintro (⟨hc, hd⟩ | ⟨j, hj, hxj, hc, hd⟩)
        · exact ⟨0, by omega, by omega, by rw [show f + 1 - 1 - 0 = f by omega]; exact hc,
            by rw [Nat.add_zero]; exact hd⟩
        · exact ⟨j + 1, by omega, by omega,
            by rw [show f + 1 - 1 - (j + 1) = f - 1 - j by omega]; exact hc,
            by rw [show x + (j + 1) = x + 1 + j by omega]; exact hd⟩
      · rintro ⟨j, hj, hxj, hc, hd⟩
        cases j with
        | zero =>
          rw [show f + 1 - 1 - 0 = f by omega] at hc
          rw [Nat.add_zero] at hd
          exact Or.inl ⟨hc, hd⟩
        | succ j =>
          exact Or.inr ⟨j, by omega, by omega,
            by rw [show f - 1 - j = f + 1 - 1 - (j + 1) by omega]; exact hc,
            by rw [show x + 1 + j = x + (j + 1) by omega]; exact hd⟩

/-- Existential characterisation of `multiHit`. -/
theorem multiHit_iff (m : Nat → Nat) (d : Nat → Nat → Bool) (idx x0 : Nat) :
    ∀ (f r yy : Nat), yy < 32 →
      (multiHit m d idx x0 f r yy = true ↔
        ∃ k, k < f ∧ yy + k < 32 ∧ rowHit (m (idx + r + k)) d (yy + k) 8 x0 = true) := by
  intro f
  induction f with
  | zero =>
    intro r yy hy
    rw [multiHit]
    simp
  | succ f ih =>
    intro r yy hy
    rw [multiHit]
    by_cases hyl : yy + 1 ≥ 32
    · rw [if_pos hyl]
      simp only [Bool.or_false]
      constructor
      · intro h
        exact ⟨0, by omega, by omega, by rw [Nat.add_zero, Nat.add_zero]; exact h⟩
      · rintro ⟨k, hk, hyk, h⟩
        have hk0 : k = 0 := by omega
        subst hk0
        rw [Nat.add_zero, Nat.add_zero] at h
        exact h
    · rw [if_neg hyl]
      simp only [Bool.or_eq_true, ih (r + 1) (yy + 1) (by omega)]
      constructor
      · rintro (h | ⟨k, hk, hyk, h⟩)
        · exact ⟨0, by omega, by omega, by rw [Nat.add_zero, Nat.add_zero]; exact h⟩
        · exact ⟨k + 1, by omega, by omega, by
            rw [show idx + r + (k + 1) = idx + (r + 1) + k by omega,
              show yy + (k + 1) = yy + 1 + k by omega]; exact h⟩
      · rintro ⟨k, hk, hyk, h⟩
        cases k with
        | zero =>
          rw [Nat.add_zero, Nat.add_zero] at h
          exact Or.inl h
        | succ k =>
          exact Or.inr ⟨k, by omega, by omega, by
            rw [show idx + (r + 1) + k = idx + r + (k + 1) by omega,
              show yy + 1 + k = yy + (k + 1) by omega]; exact h⟩

/-- C6 amended: for draw instructions whose X operand is not the flags
register 15 (the draw re-reads the start column from `registers[X]` on every
row after possibly setting the flag, which breaks the property at X = 15) and
whose sprite bytes lie inside memory, executing the same draw twice with no
other mutation in between restores the framebuffer exactly, and the second
draw sets register 15 to 1 iff some pixel turned on by the first draw is hit
again (equivalently, iff some pixel is lit after the first draw that was
clear before it), else 0.  The Y operand may be any register, including 15:
the start row is read exactly once, right after the flag clear. -/
theorem draw_twice_involution (e : Emulator) (i : Instruction)
    (hx : i.x ≠ 15) (hmem : e.index + i.n ≤ 4096) :
    ∃ e1 e2, e.operation_d i = .ok true e1 ∧ e1.operation_d i = .ok true e2 ∧
      (∀ y2 x2, e2.display y2 x2 = e.display y2 x2) ∧
      (e2.registers 15 = 1 ↔ ∃ y2 x2, e1.display y2 x2 = true ∧ e.display y2 x2 = false) ∧
      (e2.registers 15 = 1 ∨ e2.registers 15 = 0) := by
  have h32 : (0:Nat) < 32 := by omega
  have hy0 : Function.update e.registers 15 0 i.y % 32 < 32 := Nat.mod_lt _ h32
  have hx0 : Function.update e.registers 15 0 i.x % 64 < 64 := Nat.mod_lt _ (by omega)
  obtain ⟨e1, hrun1, m1, i1, r1, d1, f1⟩ :=
    drawRows_spec i.x e.index hx i.n 0 (Function.update e.registers 15 0 i.y % 32)
      {e with registers := Function.update e.registers 15 0} hy0 (by omega)
  have hop1 : e.operation_d i = .ok true e1 := by
    simp only [Emulator.operation_d]
    rw [hrun1]
  have m1' : e1.memory = e.memory := m1
  have i1' : e1.index = e.index := i1
  have r1' : ∀ j, j ≠ 15 → e1.registers j = e.registers j :=
    fun j hj => (r1 j hj).trans (Function.update_noteq hj _ _)
  have hyy : Function.update e1.registers 15 0 i.y = Function.update e.registers 15 0 i.y := by
    by_cases hcase : i.y = 15
    · rw [hcase, Function.update_same, Function.update_same]
    · rw [Function.update_noteq hcase, Function.update_noteq hcase, r1' i.y hcase]
  have hxx : Function.update e1.registers 15 0 i.x = Function.update e.registers 15 0 i.x := by
    rw [Function.update_noteq hx, Function.update_noteq hx, r1' i.x hx]
  obtain ⟨e2, hrun2, m2, i2, r2, d2, f2⟩ :=
    drawRows_spec i.x e1.index hx i.n 0 (Function.update e1.registers 15 0 i.y % 32)
      {e1 with registers := Function.update e1.registers 15 0}
      (Nat.mod_lt _ h32) (by rw [i1']; omega)
  have hop2 : e1.operation_d i = .ok true e2 := by
    simp only [Emulator.operation_d]
    rw [hrun2]
  simp only [Function.update_same] at d1 f1 d2 f2
  rw [hxx, hyy, m1', i1'] at d2 f2
  refine ⟨e1, e2, hop1, hop2, ?_, ?_, ?_⟩
  · intro y2 x2
    rw [d2 y2 x2]
    by_cases hc : Function.update e.registers 15 0 i.y % 32 ≤ y2 ∧
        y2 < Function.update e.registers 15 0 i.y % 32 +
          min i.n (32 - Function.update e.registers 15 0 i.y % 32) ∧
        Function.update e.registers 15 0 i.x % 64 ≤ x2 ∧
        x2 < Function.update e.registers 15 0 i.x % 64 + 8 ∧ x2 < 64
    · rw [if_pos hc, d1 y2 x2, if_pos hc]
      simp [Bool.xor_assoc]
    · rw [if_neg hc, d1 y2 x2, if_neg hc]
  · rw [f2]
    constructor
    · intro h15
      by_cases hM : multiHit e.memory e1.display e.index
          (Function.update e.registers 15 0 i.x % 64) i.n 0
          (Function.update e.registers 15 0 i.y % 32) = true
      · obtain ⟨k, hk, hyk, hrow⟩ :=
          (multiHit_iff e.memory e1.display e.index
            (Function.update e.registers 15 0 i.x % 64) i.n 0
            (Function.update e.registers 15 0 i.y % 32) hy0).mp hM
        obtain ⟨j, hj, hxj, hcb, hdisp⟩ :=
          (rowHit_iff (e.memory (e.index + 0 + k)) e1.display
            (Function.update e.registers 15 0 i.y % 32 + k) 8
            (Function.update e.registers 15 0 i.x % 64) hx0).mp hrow
        refine ⟨Function.update e.registers 15 0 i.y % 32 + k,
          Function.update e.registers 15 0 i.x % 64 + j, hdisp, ?_⟩
        have hd := d1 (Function.update e.registers 15 0 i.y % 32 + k)
          (Function.update e.registers 15 0 i.x % 64 + j)
        rw [if_pos (by omega),
          show Function.update e.registers 15 0 i.y % 32 + k -
            Function.update e.registers 15 0 i.y % 32 = k by omega,
          show Function.update e.registers 15 0 i.x % 64 + j -
            Function.update e.registers 15 0 i.x % 64 = j by omega] at hd
        rw [show (8:Nat) - 1 - j = 7 - j by omega] at hcb
        rw [hcb, hdisp] at hd
        simpa [Bool.xor_true] using hd.symm
      · rw [if_neg hM] at h15
        omega
    · rintro ⟨y2, x2, h1disp, hedisp⟩
      have hd := d1 y2 x2
      by_cases hc : Function.update e.registers 15 0 i.y % 32 ≤ y2 ∧
          y2 < Function.update e.registers 15 0 i.y % 32 +
            min i.n (32 - Function.update e.registers 15 0 i.y % 32) ∧
          Function.update e.registers 15 0 i.x % 64 ≤ x2 ∧
          x2 < Function.update e.registers 15 0 i.x % 64 + 8 ∧ x2 < 64
      · rw [if_pos hc, hedisp] at hd
        rw [h1disp] at hd
        have hb : colBit (e.memory (e.index + 0 +
            (y2 - Function.update e.registers 15 0 i.y % 32)))
            (7 - (x2 - Function.update e.registers 15 0 i.x % 64)) = true := by
          simpa using hd.symm
        have hM : multiHit e.memory e1.display e.index
            (Function.update e.registers 15 0 i.x % 64) i.n 0
            (Function.update e.registers 15 0 i.y % 32) = true := by
          rw [multiHit_iff e.memory e1.display e.index
            (Function.update e.registers 15 0 i.x % 64) i.n 0
            (Function.update e.registers 15 0 i.y % 32) hy0]
          refine ⟨y2 - Function.update e.registers 15 0 i.y % 32, by omega, by omega, ?_⟩
          rw [rowHit_iff (e.memory (e.index + 0 +
              (y2 - Function.update e.registers 15 0 i.y % 32))) e1.display
            (Function.update e.registers 15 0 i.y % 32 +
              (y2 - Function.update e.registers 15 0 i.y % 32)) 8
            (Function.update e.registers 15 0 i.x % 64) hx0]
          refine ⟨x2 - Function.update e.registers 15 0 i.x % 64, by omega, by omega, ?_, ?_⟩
          · rw [show (8:Nat) - 1 - (x2 - Function.update e.registers 15 0 i.x % 64) =
              7 - (x2 - Function.update e.registers 15 0 i.x % 64) by omega]
            exact hb
          · rw [show Function.update e.registers 15 0 i.y % 32 +
                (y2 - Function.update e.registers 15 0 i.y % 32) = y2 by omega,
              show Function.update e.registers 15 0 i.x % 64 +
                (x2 - Function.update e.registers 15 0 i.x % 64) = x2 by omega]
            exact h1disp
        rw [if_pos hM]
      · rw [if_neg hc, h1disp] at hd
        exact absurd hd.symm (by simp [hedisp])
  · rw [f2]
    by_cases hM : multiHit e.memory e1.display e.index
        (Function.update e.registers 15 0 i.x % 64) i.n 0
        (Function.update e.registers 15 0 i.y % 32) = true
    · rw [if_pos hM]
      exact Or.inl rfl
    · rw [if_neg hM]
      exact Or.inr rfl

/-- Witness for `draw_twice_involution` at a concrete state whose Y operand
is the flags register itself. -/
theorem draw_twice_involution_witness :
    ((⟨0xD, 0, 15, 1, 1, 0x011⟩ : Instruction).x ≠ 15 ∧
      zeroEmu.index + (⟨0xD, 0, 15, 1, 1, 0x011⟩ : Instruction).n ≤ 4096) ∧
    (∃ e1 e2, zeroEmu.operation_d ⟨0xD, 0, 15, 1, 1, 0x011⟩ = .ok true e1 ∧
      e1.operation_d ⟨0xD, 0, 15, 1, 1, 0x011⟩ = .ok true e2 ∧
      (∀ y2 x2, e2.display y2 x2 = zeroEmu.display y2 x2) ∧
      (e2.registers 15 = 1 ↔
        ∃ y2 x2, e1.display y2 x2 = true ∧ zeroEmu.display y2 x2 = false) ∧
      (e2.registers 15 = 1 ∨ e2.registers 15 = 0)) :=
  ⟨⟨by decide, by decide⟩,
    draw_twice_involution zeroEmu ⟨0xD, 0, 15, 1, 1, 0x011⟩ (by decide) (by decide)⟩
